import Mathlib

/-!
Shallow embedding of the varball baseball simulator (src/src/main.rs) and
verification of its specification claims.

All 8-bit machine integers of the source (team run totals, the inning
counter, run counts) are modelled as Nat with arithmetic taken modulo 256
where the source performs u8 addition, matching release-mode wrapping
semantics.  Panicking operations (array indexing out of bounds, the
unreachable arm of FinalScore::winner) are modelled with Option, where
none stands for a panic.  The random draws consumed by the scoring
closure are passed in explicitly as a list of naturals, and the
potentially unbounded game loop of Game::complete is given explicit fuel.
-/

namespace Varball

/-- Number of innings in a regulation game (NUM_INNINGS_DEFAULT in the source). -/
def NUM_INNINGS_DEFAULT : Nat := 9

/-- Modulus of the 8-bit integers used by the source. -/
def U8_MOD : Nat := 256

/-- Size of the INNING_COUNTS histogram: (u8::MAX - 10) buckets. -/
def NUM_EXTRA_INNING_LENGTHS : Nat := 255 - 10

/-- The half of an inning currently being played (enum HalfInning). -/
inductive HalfInning
  | Top
  | Bottom
deriving DecidableEq

/-- HalfInning::flip, as a pure function. -/
def HalfInning.flip : HalfInning → HalfInning
  | Top => Bottom
  | Bottom => Top

/-- struct GameState, with u8 fields modelled as Nat (values below 256). -/
structure GameState where
  home_team_runs : Nat
  away_team_runs : Nat
  inning : Nat
  half_inning : HalfInning
deriving DecidableEq

/-- impl Default for GameState: all counters zero, half_inning Bottom. -/
def GameState.default : GameState :=
  { home_team_runs := 0, away_team_runs := 0, inning := 0,
    half_inning := HalfInning.Bottom }

/-- struct FinalScore. -/
structure FinalScore where
  home_team : Nat
  away_team : Nat
  inning : Nat
deriving DecidableEq

/-- enum Team. -/
inductive Team
  | Home
  | Away
deriving DecidableEq

/-- GameState::is_over, translated clause for clause from the source. -/
def GameState.is_over (s : GameState) : Bool :=
  (decide (s.inning = NUM_INNINGS_DEFAULT) &&
      decide (s.half_inning = HalfInning.Top) &&
      decide (s.home_team_runs > s.away_team_runs))
    ||
  (decide (s.inning ≥ NUM_INNINGS_DEFAULT) &&
      decide (s.half_inning = HalfInning.Bottom) &&
      decide (s.home_team_runs ≠ s.away_team_runs))

/-- GameState::step.  The early return on a finished game, the half flip,
the conditional inning increment and the conditional run addition follow
the source; the u8 additions wrap modulo 256. -/
def GameState.step (s : GameState) (runs_scored : Nat) : GameState :=
  if s.is_over then s
  else
    let half := s.half_inning.flip
    let inn := if half = HalfInning.Top then (s.inning + 1) % U8_MOD else s.inning
    if runs_scored > 0 then
      match half with
      | HalfInning.Top =>
        { s with half_inning := half, inning := inn,
                 away_team_runs := (s.away_team_runs + runs_scored) % U8_MOD }
      | HalfInning.Bottom =>
        { s with half_inning := half, inning := inn,
                 home_team_runs := (s.home_team_runs + runs_scored) % U8_MOD }
    else
      { s with half_inning := half, inning := inn }

/-- FinalScore::winner.  The Ordering::Equal arm is unreachable! in the
source; it is modelled as none (a panic). -/
def FinalScore.winner (fs : FinalScore) : Option Team :=
  if fs.home_team > fs.away_team then some Team.Home
  else if fs.home_team < fs.away_team then some Team.Away
  else none

/-- The geometric draw loop of the scoring closure in simulate_game:
repeat(1).take_while(draw < percent).sum(), consuming draws from the
given list; returns the run count and the remaining draws.  An exhausted
draw list ends the loop with no further runs. -/
def drawRuns (percent : Nat) : List Nat → Nat × List Nat
  | [] => (0, [])
  | d :: ds =>
    if d < percent then
      let r := drawRuns percent ds
      (r.1 + 1, r.2)
    else
      (0, ds)

/-- The run-checker closure built in simulate_game: it draws with the
extra-innings percentage exactly when the state's inning exceeds
NUM_INNINGS_DEFAULT, and with the regular percentage otherwise. -/
def runChecker (regular extra : Nat) (s : GameState) (draws : List Nat) :
    Nat × List Nat :=
  if s.inning > NUM_INNINGS_DEFAULT then drawRuns extra draws
  else drawRuns regular draws

/-- Game::complete: loop while the state is not over, consulting the run
checker on the pre-step state and stepping; on termination snapshot a
FinalScore.  Fuel bounds the number of loop iterations; none models a
run that did not terminate within the fuel. -/
def Game.complete (regular extra : Nat) :
    Nat → GameState → List Nat → Option FinalScore
  | 0, _, _ => none
  | fuel + 1, s, draws =>
    if s.is_over then
      some { home_team := s.home_team_runs, away_team := s.away_team_runs,
             inning := s.inning }
    else
      let rc := runChecker regular extra s draws
      Game.complete regular extra fuel (s.step rc.1) rc.2

/-- simulate_game: build a fresh game, optionally pre-seed the inning to
NUM_INNINGS_DEFAULT when skip_first_nine_innings is set, and complete it. -/
def simulate_game (regular extra : Nat) (skip_first_nine_innings : Bool)
    (fuel : Nat) (draws : List Nat) : Option FinalScore :=
  let st :=
    if skip_first_nine_innings then
      { GameState.default with inning := NUM_INNINGS_DEFAULT }
    else GameState.default
  Game.complete regular extra fuel st draws

/-- update_inning_count: increment INNING_COUNTS[num_innings - 10].  The
usize subtraction underflow (num_innings < 10) and an out-of-bounds
index both panic in the source and are modelled as none. -/
def update_inning_count (hist : List Nat) (num_innings : Nat) :
    Option (List Nat) :=
  if num_innings < 10 then none
  else if h : num_innings - 10 < hist.length then
    some (hist.set (num_innings - 10) (hist.get ⟨num_innings - 10, h⟩ + 1))
  else none

/-- The body of the sim_games! macro, processing one draw stream per game:
simulate the game, and when its final inning exceeds NUM_INNINGS_DEFAULT
update the histogram and count it.  none models a panic or fuel
exhaustion in some game. -/
def sim_games (regular extra : Nat) (skip : Bool) (fuel : Nat)
    (hist : List Nat) (cnt : Nat) :
    List (List Nat) → Option (List Nat × Nat)
  | [] => some (hist, cnt)
  | draws :: rest =>
    match simulate_game regular extra skip fuel draws with
    | none => none
    | some fs =>
      if fs.inning > NUM_INNINGS_DEFAULT then
        match update_inning_count hist fs.inning with
        | none => none
        | some hist' => sim_games regular extra skip fuel hist' (cnt + 1) rest
      else
        sim_games regular extra skip fuel hist cnt rest

/-- simulate_inning_counts: run every game against the zero-initialized
histogram, returning the final histogram and the extra-inning game count. -/
def simulate_inning_counts (regular extra : Nat) (skip : Bool) (fuel : Nat)
    (drawss : List (List Nat)) : Option (List Nat × Nat) :=
  sim_games regular extra skip fuel
    (List.replicate NUM_EXTRA_INNING_LENGTHS 0) 0 drawss

/-- The argument validation at the top of main, including its use of
regular_score_percent in the second range check, exactly as in the
source.  error e models returning Err(e), i.e. process exit code e. -/
def main (regular_score_percent extra_innings_score_percent : Nat) :
    Except Nat Unit :=
  if regular_score_percent < 1 ∨ regular_score_percent > 99 then
    Except.error 1
  else if extra_innings_score_percent < 1 ∨ regular_score_percent > 99 then
    Except.error 2
  else
    Except.ok ()

/-- Iterating step with zero runs from a fresh GameState, as in the
test_inning_changes scenario. -/
def stepIter : Nat → GameState
  | 0 => GameState.default
  | k + 1 => (stepIter k).step 0

/-- Number of games in a batch whose simulation finishes past regulation
length (the games counted by sim_games!). -/
def extraCount (regular extra : Nat) (skip : Bool) (fuel : Nat)
    (drawss : List (List Nat)) : Nat :=
  drawss.countP fun draws =>
    match simulate_game regular extra skip fuel draws with
    | some fs => decide (fs.inning > NUM_INNINGS_DEFAULT)
    | none => false

/-- Number of games in a batch whose simulation ends at exactly inning n. -/
def gamesEndingAt (regular extra : Nat) (skip : Bool) (fuel : Nat)
    (n : Nat) (drawss : List (List Nat)) : Nat :=
  drawss.countP fun draws =>
    match simulate_game regular extra skip fuel draws with
    | some fs => decide (fs.inning = n)
    | none => false

/-! ### Helper lemmas -/

/-- Unfolding of is_over into a propositional characterization. -/
lemma is_over_iff (s : GameState) :
    s.is_over = true ↔
      (s.inning = 9 ∧ s.half_inning = HalfInning.Top ∧
        s.away_team_runs < s.home_team_runs) ∨
      (9 ≤ s.inning ∧ s.half_inning = HalfInning.Bottom ∧
        s.home_team_runs ≠ s.away_team_runs) := by
  simp [GameState.is_over, NUM_INNINGS_DEFAULT, Bool.or_eq_true,
    Bool.and_eq_true, decide_eq_true_eq, gt_iff_lt, ge_iff_le, and_assoc]

/-- A finished state always has unequal team totals. -/
lemma is_over_ne (s : GameState)
    (h : s.is_over = true) : s.home_team_runs ≠ s.away_team_runs := by
  rcases (is_over_iff s).1 h with ⟨_, _, hlt⟩ | ⟨_, _, hne⟩
  · omega
  · exact hne

/-- step on a finished state is the identity. -/
lemma step_eq_of_over (s : GameState) (r : Nat)
    (h : s.is_over = true) : s.step r = s := by
  unfold GameState.step
  rw [h]
  simp

/-- On an unfinished state, step flips the half and increments the inning
(mod 256) exactly when the new half is Top, regardless of the run count. -/
lemma step_half_and_inning (s : GameState) (r : Nat)
    (h : s.is_over = false) :
    (s.step r).half_inning = s.half_inning.flip ∧
    (s.step r).inning =
      (if s.half_inning.flip = HalfInning.Top then (s.inning + 1) % U8_MOD
       else s.inning) := by
  unfold GameState.step
  rw [h]
  simp only [Bool.false_eq_true, if_false]
  by_cases hr : r > 0
  · rw [if_pos hr]
    cases hf : s.half_inning.flip <;> simp [hf]
  · rw [if_neg hr]
    simp

/-- A state with equal totals is never finished. -/
lemma is_over_tied_false (s : GameState)
    (h : s.home_team_runs = s.away_team_runs) : s.is_over = false := by
  cases hov : s.is_over
  · rfl
  · rcases (is_over_iff s).1 hov with ⟨_, _, hlt⟩ | ⟨_, _, hne⟩
    · omega
    · exact absurd h hne

/-- On an unfinished state with no 8-bit overflow, step adds the run count
to the team batting in the new half and leaves the other total alone. -/
lemma step_runs_no_overflow (s : GameState) (r : Nat)
    (h : s.is_over = false)
    (hh : s.home_team_runs + r ≤ 255) (ha : s.away_team_runs + r ≤ 255) :
    (s.step r).home_team_runs =
      (if s.half_inning.flip = HalfInning.Bottom then s.home_team_runs + r
       else s.home_team_runs) ∧
    (s.step r).away_team_runs =
      (if s.half_inning.flip = HalfInning.Top then s.away_team_runs + r
       else s.away_team_runs) := by
  unfold GameState.step
  rw [h]
  simp only [Bool.false_eq_true, if_false]
  by_cases hr : r > 0
  · rw [if_pos hr]
    cases hf : s.half_inning.flip <;>
      simp [hf, U8_MOD,
        Nat.mod_eq_of_lt (show s.home_team_runs + r < 256 by omega),
        Nat.mod_eq_of_lt (show s.away_team_runs + r < 256 by omega)]
  · have hr0 : r = 0 := by omega
    rw [if_neg hr]
    cases hf : s.half_inning.flip <;> simp [hf, hr0]

/-- step with zero runs on a tied state only moves the half and inning. -/
lemma step_zero_tied (i : Nat) (h : HalfInning) :
    (GameState.mk 0 0 i h).step 0 =
      GameState.mk 0 0
        (if h.flip = HalfInning.Top then (i + 1) % U8_MOD else i) h.flip := by
  have hov := is_over_tied_false (GameState.mk 0 0 i h) rfl
  unfold GameState.step
  rw [hov]
  simp

/-! ### Claims -/

/-- Claim C1: is_over returns true iff (a) the half is Top, the inning is
exactly 9 and the home team leads, or (b) the half is Bottom, the inning
is at least 9 and the totals differ; in particular any state with inning
below 9 is not over regardless of the scores. -/
theorem is_over_characterization (s : GameState) :
    (s.is_over = true ↔
      (s.half_inning = HalfInning.Top ∧ s.inning = 9 ∧
        s.home_team_runs > s.away_team_runs) ∨
      (s.half_inning = HalfInning.Bottom ∧ s.inning ≥ 9 ∧
        s.home_team_runs ≠ s.away_team_runs)) ∧
    (s.inning < 9 → s.is_over = false) := by
  refine ⟨?_, ?_⟩
  · rw [is_over_iff]
    constructor
    · rintro (⟨h1, h2, h3⟩ | ⟨h1, h2, h3⟩)
      · exact Or.inl ⟨h2, h1, h3⟩
      · exact Or.inr ⟨h2, h1, h3⟩
    · rintro (⟨h1, h2, h3⟩ | ⟨h1, h2, h3⟩)
      · exact Or.inl ⟨h2, h1, h3⟩
      · exact Or.inr ⟨h2, h1, h3⟩
  · intro hlt
    cases hov : s.is_over
    · rfl
    · rcases (is_over_iff s).1 hov with ⟨h1, _, _⟩ | ⟨h1, _, _⟩ <;> omega

/-- Witness for C1 at a concrete pre-regulation state. -/
theorem is_over_characterization_witness :
    (GameState.mk 5 7 3 HalfInning.Top).is_over = false :=
  (is_over_characterization (GameState.mk 5 7 3 HalfInning.Top)).2 (by decide)

/-- Claim C9: once a game is over, step leaves the state completely
unchanged, and repeated calls never change it either. -/
theorem step_noop_when_over (s : GameState) (r r' : Nat)
    (h : s.is_over = true) :
    s.step r = s ∧ (s.step r).step r' = s := by
  have h1 := step_eq_of_over s r h
  refine ⟨h1, ?_⟩
  rw [h1]
  exact step_eq_of_over s r' h

/-- Witness for C9 at a concrete finished state. -/
theorem step_noop_when_over_witness :
    (GameState.mk 1 0 9 HalfInning.Top).step 5 =
      GameState.mk 1 0 9 HalfInning.Top ∧
    ((GameState.mk 1 0 9 HalfInning.Top).step 5).step 7 =
      GameState.mk 1 0 9 HalfInning.Top :=
  step_noop_when_over (GameState.mk 1 0 9 HalfInning.Top) 5 7 (by decide)

/-- Claim C5 (code bug): evaluating main's validation shows the
asymmetry: regular_score_percent out of range yields exit code 1 on
either side, extra_innings_score_percent = 0 yields exit code 2, but
extra_innings_score_percent = 100 is NOT rejected (the second check
re-tests regular_score_percent against 99), so the run proceeds to exit
code 0 instead of 2. -/
theorem main_validation_evaluation :
    main 40 100 = Except.ok () ∧
    main 0 50 = Except.error 1 ∧
    main 100 50 = Except.error 1 ∧
    main 40 0 = Except.error 2 :=
  ⟨rfl, rfl, rfl, rfl⟩

set_option maxRecDepth 4000 in
/-- Claim C6 (code bug): stepping a tied bottom-of-the-255th state wraps
the 8-bit inning counter silently to 0 instead of failing, while the
histogram update for inning 255 does panic (out-of-bounds index,
modelled as none). -/
theorem inning_counter_wrap_evaluation :
    (GameState.mk 0 0 255 HalfInning.Bottom).step 0 =
      GameState.mk 0 0 0 HalfInning.Top ∧
    update_inning_count (List.replicate NUM_EXTRA_INNING_LENGTHS 0) 255 =
      none := by
  exact ⟨rfl, rfl⟩

/-- Counterexample for C2: on an unfinished state with the away total at
255, stepping with one run wraps the 8-bit total to 0 instead of adding. -/
theorem step_add_cex :
    (GameState.mk 0 255 0 HalfInning.Bottom).is_over = false ∧
    ((GameState.mk 0 255 0 HalfInning.Bottom).step 1).away_team_runs = 0 ∧
    ((GameState.mk 0 255 0 HalfInning.Bottom).step 1).away_team_runs ≠
      255 + 1 := by
  decide

/-- Claim C2 as amended: absent 8-bit overflow, step on an unfinished
state flips the half, increments the inning exactly when the new half is
Top and credits the runs to the batting team; and iterating step 0 from
the fresh state yields innings (k+1)/2 (mod 256) with the half
alternating into Top on every odd iterate. -/
theorem step_spec_no_overflow :
    (∀ s : GameState, ∀ r : Nat, s.is_over = false →
      s.home_team_runs + r ≤ 255 → s.away_team_runs + r ≤ 255 →
      s.inning ≤ 254 →
      (s.half_inning = HalfInning.Bottom →
        s.step r = GameState.mk s.home_team_runs (s.away_team_runs + r)
          (s.inning + 1) HalfInning.Top) ∧
      (s.half_inning = HalfInning.Top →
        s.step r = GameState.mk (s.home_team_runs + r) s.away_team_runs
          s.inning HalfInning.Bottom)) ∧
    (∀ k : Nat, stepIter k = GameState.mk 0 0 (((k + 1) / 2) % U8_MOD)
      (if k % 2 = 1 then HalfInning.Top else HalfInning.Bottom)) := by
  constructor
  · intro s r hov hh ha hi
    obtain ⟨hhalf, hinn⟩ := step_half_and_inning s r hov
    obtain ⟨hhome, haway⟩ := step_runs_no_overflow s r hov hh ha
    constructor
    · intro hb
      have hflip : s.half_inning.flip = HalfInning.Top := by
        rw [hb]; rfl
      have hmod : (s.inning + 1) % U8_MOD = s.inning + 1 :=
        Nat.mod_eq_of_lt (by unfold U8_MOD; omega)
      cases hst : s.step r
      simp only [hst] at hhalf hinn hhome haway
      simp only [hflip, if_pos, reduceIte] at hhome haway hinn
      simp_all [hmod]
    · intro ht
      have hflip : s.half_inning.flip = HalfInning.Bottom := by
        rw [ht]; rfl
      cases hst : s.step r
      simp only [hst] at hhalf hinn hhome haway
      simp only [hflip, reduceIte] at hhome haway hinn
      simp_all
  · intro k
    induction k with
    | zero => decide
    | succ k ih =>
      show (stepIter k).step 0 = _
      rw [ih, step_zero_tied]
      rcases Nat.mod_two_eq_zero_or_one k with hk | hk
      · have h2 : (if k % 2 = 1 then HalfInning.Top else HalfInning.Bottom)
            = HalfInning.Bottom := by simp [hk]
        have h3 : (if (k + 1) % 2 = 1 then HalfInning.Top
            else HalfInning.Bottom) = HalfInning.Top := by
          have : (k + 1) % 2 = 1 := by omega
          simp [this]
        rw [h2, h3]
        have hf : HalfInning.Bottom.flip = HalfInning.Top := rfl
        rw [hf, if_pos rfl]
        rw [GameState.mk.injEq]
        refine ⟨rfl, rfl, ?_, rfl⟩
        unfold U8_MOD
        omega
      · have h2 : (if k % 2 = 1 then HalfInning.Top else HalfInning.Bottom)
            = HalfInning.Top := by simp [hk]
        have h3 : (if (k + 1) % 2 = 1 then HalfInning.Top
            else HalfInning.Bottom) = HalfInning.Bottom := by
          have : (k + 1) % 2 = 0 := by omega
          simp [this]
        rw [h2, h3]
        have hf : HalfInning.Top.flip = HalfInning.Bottom := rfl
        rw [hf, if_neg (by decide : ¬ HalfInning.Bottom = HalfInning.Top)]
        rw [GameState.mk.injEq]
        refine ⟨rfl, rfl, ?_, rfl⟩
        unfold U8_MOD
        omega

/-- Witness for the amended C2 at a concrete unfinished state. -/
theorem step_spec_no_overflow_witness :
    (GameState.mk 2 3 4 HalfInning.Bottom).step 5 =
      GameState.mk 2 8 5 HalfInning.Top :=
  (step_spec_no_overflow.1 (GameState.mk 2 3 4 HalfInning.Bottom) 5
    (by decide) (by decide) (by decide) (by decide)).1 rfl

/-- Counterexample for C8: on an unfinished state with the home total at
255, stepping with one run wraps the 8-bit total below its old value. -/
theorem step_monotone_cex :
    (GameState.mk 255 0 3 HalfInning.Top).is_over = false ∧
    ¬ (GameState.mk 255 0 3 HalfInning.Top).home_team_runs ≤
        ((GameState.mk 255 0 3 HalfInning.Top).step 1).home_team_runs := by
  decide

/-- Claim C8 as amended: absent 8-bit overflow, step never decreases
either team total, leaves the inning unchanged or incremented by exactly
one (incremented exactly when the game is live and the new half is Top),
is the identity on finished states, and alternates the half on live
states. -/
theorem step_monotone_no_overflow (s : GameState) (r : Nat)
    (hh : s.home_team_runs + r ≤ 255) (ha : s.away_team_runs + r ≤ 255)
    (hi : s.inning ≤ 254) :
    s.home_team_runs ≤ (s.step r).home_team_runs ∧
    s.away_team_runs ≤ (s.step r).away_team_runs ∧
    ((s.step r).inning = s.inning ∨ (s.step r).inning = s.inning + 1) ∧
    ((s.step r).inning = s.inning + 1 ↔
      s.is_over = false ∧ (s.step r).half_inning = HalfInning.Top) ∧
    (s.is_over = true → s.step r = s) ∧
    (s.is_over = false → (s.step r).half_inning = s.half_inning.flip) := by
  have hmod : (s.inning + 1) % U8_MOD = s.inning + 1 :=
    Nat.mod_eq_of_lt (by unfold U8_MOD; omega)
  cases hov : s.is_over
  · obtain ⟨hhalf, hinn⟩ := step_half_and_inning s r hov
    obtain ⟨hhome, haway⟩ := step_runs_no_overflow s r hov hh ha
    refine ⟨?_, ?_, ?_, ?_, ?_, fun _ => hhalf⟩
    · rw [hhome]; split <;> omega
    · rw [haway]; split <;> omega
    · rw [hinn]; split
      · rw [hmod]; exact Or.inr rfl
      · exact Or.inl rfl
    · rw [hinn, hhalf]
      cases hf : s.half_inning.flip
      · rw [if_pos rfl, hmod]
        simp
      · rw [if_neg (by decide : ¬ HalfInning.Bottom = HalfInning.Top)]
        constructor
        · intro he; omega
        · rintro ⟨-, he⟩; exact absurd he (by decide)
    · intro h1; exact Bool.noConfusion h1
  · have hid := step_eq_of_over s r hov
    rw [hid]
    refine ⟨le_refl _, le_refl _, Or.inl rfl, ?_, fun _ => rfl, ?_⟩
    · constructor
      · intro he; omega
      · rintro ⟨hfalse, -⟩; exact Bool.noConfusion hfalse
    · intro hfalse; exact Bool.noConfusion hfalse

/-- Witness for the amended C8 at a concrete state. -/
theorem step_monotone_no_overflow_witness :
    (GameState.mk 1 2 5 HalfInning.Top).home_team_runs ≤
      ((GameState.mk 1 2 5 HalfInning.Top).step 3).home_team_runs :=
  (step_monotone_no_overflow (GameState.mk 1 2 5 HalfInning.Top) 3
    (by decide) (by decide) (by decide)).1

/-- The run count of the geometric draw loop is the length of the longest
prefix of successful draws. -/
lemma drawRuns_fst (p : Nat) (ds : List Nat) :
    (drawRuns p ds).1 = (ds.takeWhile fun d => decide (d < p)).length := by
  induction ds with
  | nil => rfl
  | cons d ds ih =>
    unfold drawRuns
    by_cases hd : d < p
    · simp [hd, List.takeWhile_cons, ih]
    · simp [hd, List.takeWhile_cons]

/-- Claim C3: for any percentage in 1..99 and draws in 1..100, the
scoring model returns the number of initial consecutive draws strictly
below the percentage, returns 0 when the first draw already fails, and
is always non-negative. -/
theorem scoring_model_spec (p : Nat) (ds : List Nat)
    (_hp1 : 1 ≤ p) (_hp2 : p ≤ 99)
    (_hds : ∀ d ∈ ds, 1 ≤ d ∧ d ≤ 100) :
    (drawRuns p ds).1 = (ds.takeWhile fun d => decide (d < p)).length ∧
    (∀ d ds', ds = d :: ds' → p ≤ d → (drawRuns p ds).1 = 0) ∧
    0 ≤ (drawRuns p ds).1 := by
  refine ⟨drawRuns_fst p ds, ?_, Nat.zero_le _⟩
  rintro d ds' rfl hpd
  unfold drawRuns
  rw [if_neg (by omega)]

/-- Witness for C3 on a concrete draw list. -/
theorem scoring_model_spec_witness :
    (drawRuns 40 [1, 50, 3]).1 =
      (([1, 50, 3] : List Nat).takeWhile fun d => decide (d < 40)).length :=
  (scoring_model_spec 40 [1, 50, 3] (by decide) (by decide) (by decide)).1

/-- A tied FinalScore makes winner panic; any other has a winner. -/
lemma winner_isSome (fs : FinalScore)
    (h : fs.home_team ≠ fs.away_team) : (fs.winner).isSome = true := by
  unfold FinalScore.winner
  by_cases h1 : fs.home_team > fs.away_team
  · rw [if_pos h1]; rfl
  · rw [if_neg h1, if_pos (by omega)]; rfl

/-- Claim C7: every FinalScore emitted by Game::complete has unequal
totals, so the Equal arm of FinalScore::winner is unreachable on it. -/
theorem complete_no_tie (regular extra fuel : Nat) (s : GameState)
    (draws : List Nat) (fs : FinalScore)
    (h : Game.complete regular extra fuel s draws = some fs) :
    fs.home_team ≠ fs.away_team ∧ (fs.winner).isSome = true := by
  induction fuel generalizing s draws with
  | zero => exact absurd h (by simp [Game.complete])
  | succ fuel ih =>
    unfold Game.complete at h
    by_cases hov : s.is_over = true
    · rw [if_pos hov] at h
      obtain rfl := Option.some.inj h
      have hne : s.home_team_runs ≠ s.away_team_runs := is_over_ne s hov
      exact ⟨hne, winner_isSome _ hne⟩
    · rw [if_neg hov] at h
      exact ih _ _ h

/-- Witness for C7: a concrete completed game (away scores once in the
top of the first, nothing afterwards) ends 0-1 after nine innings. -/
theorem complete_no_tie_witness :
    (FinalScore.mk 0 1 9).home_team ≠ (FinalScore.mk 0 1 9).away_team ∧
    ((FinalScore.mk 0 1 9).winner).isSome = true :=
  complete_no_tie 50 50 25 (GameState.mk 0 0 0 HalfInning.Bottom)
    (1 :: List.replicate 18 100) (FinalScore.mk 0 1 9) (by decide)

/-- Claim C10: the scoring closure picks the extra-innings percentage
exactly when the pre-step inning exceeds 9; in a skip-first-nine game the
driver starts from inning 9 / Bottom, so the first half-inning (the top
of the 10th) is drawn with the regular percentage, the first step lands
in the top of the 10th, and from then on every state keeps inning at
least 10, so the extra-innings percentage applies. -/
theorem run_checker_percent_selection (regular extra : Nat)
    (ds : List Nat) :
    runChecker regular extra (GameState.mk 0 0 9 HalfInning.Bottom) ds =
      drawRuns regular ds ∧
    (∀ s : GameState, 9 < s.inning →
      runChecker regular extra s ds = drawRuns extra ds) ∧
    (∀ s : GameState, s.inning ≤ 9 →
      runChecker regular extra s ds = drawRuns regular ds) ∧
    (∀ fuel : Nat, simulate_game regular extra true fuel ds =
      Game.complete regular extra fuel
        (GameState.mk 0 0 9 HalfInning.Bottom) ds) ∧
    (∀ r : Nat,
      ((GameState.mk 0 0 9 HalfInning.Bottom).step r).inning = 10 ∧
      ((GameState.mk 0 0 9 HalfInning.Bottom).step r).half_inning =
        HalfInning.Top) ∧
    (∀ s : GameState, ∀ r : Nat, 10 ≤ s.inning → s.inning ≤ 254 →
      10 ≤ (s.step r).inning) := by
  refine ⟨?_, ?_, ?_, ?_, ?_, ?_⟩
  · unfold runChecker
    rw [if_neg (by decide)]
  · intro s hs
    unfold runChecker
    rw [if_pos (show s.inning > NUM_INNINGS_DEFAULT from hs)]
  · intro s hs
    unfold runChecker
    rw [if_neg (show ¬ s.inning > NUM_INNINGS_DEFAULT from by
      unfold NUM_INNINGS_DEFAULT; omega)]
  · intro fuel; rfl
  · intro r
    have hov : (GameState.mk 0 0 9 HalfInning.Bottom).is_over = false :=
      is_over_tied_false _ rfl
    obtain ⟨hhalf, hinn⟩ :=
      step_half_and_inning (GameState.mk 0 0 9 HalfInning.Bottom) r hov
    have hf : (GameState.mk 0 0 9 HalfInning.Bottom).half_inning.flip =
        HalfInning.Top := rfl
    constructor
    · rw [hinn, hf, if_pos rfl]; decide
    · rw [hhalf, hf]
  · intro s r h10 h254
    by_cases hov : s.is_over = true
    · rw [step_eq_of_over s r hov]; exact h10
    · have hovf : s.is_over = false := by
        revert hov; cases s.is_over <;> simp
      obtain ⟨-, hinn⟩ := step_half_and_inning s r hovf
      rw [hinn]
      split
      · rw [Nat.mod_eq_of_lt (show s.inning + 1 < U8_MOD from by
          unfold U8_MOD; omega)]
        omega
      · exact h10

/-- Witness for C10 at a concrete extra-inning state. -/
theorem run_checker_percent_selection_witness :
    runChecker 30 70 (GameState.mk 0 0 10 HalfInning.Top) [5] =
      drawRuns 70 [5] :=
  (run_checker_percent_selection 30 70 [5]).2.1
    (GameState.mk 0 0 10 HalfInning.Top) (by decide)

/-- Panicking list access agrees with checked access in bounds. -/
lemma getBang_eq (l : List Nat) (i : Nat) (h : i < l.length) :
    l[i]! = l[i] :=
  getElem!_pos l i h

/-- Incrementing one bucket of a histogram raises its sum by one. -/
lemma sum_set_succ (l : List Nat) (i : Nat) (h : i < l.length) :
    (l.set i (l.get ⟨i, h⟩ + 1)).sum = l.sum + 1 := by
  induction l generalizing i with
  | nil => cases h
  | cons a l ih =>
    cases i with
    | zero => show (a + 1 + l.sum) = a + l.sum + 1; omega
    | succ i =>
      show a + (l.set i (l.get ⟨i, _⟩ + 1)).sum = a + l.sum + 1
      rw [ih i (Nat.lt_of_succ_lt_succ h)]
      omega

/-- What a successful histogram update does: the index is in range, the
inning is at least 10, the length and every other bucket are preserved,
the targeted bucket and the total both grow by one. -/
lemma update_inning_count_some (hist hist1 : List Nat) (n : Nat)
    (h : update_inning_count hist n = some hist1) :
    10 ≤ n ∧ n - 10 < hist.length ∧
    hist1.length = hist.length ∧
    hist1.sum = hist.sum + 1 ∧
    (∀ i, i < hist1.length → i < hist.length →
      hist1[i]! = hist[i]! + (if n = i + 10 then 1 else 0)) := by
  unfold update_inning_count at h
  by_cases h10 : n < 10
  · rw [if_pos h10] at h; exact absurd h (by simp)
  · rw [if_neg h10] at h
    split at h
    · next hidx =>
      obtain rfl := (Option.some.inj h).symm
      refine ⟨by omega, hidx, by simp, sum_set_succ hist (n - 10) hidx, ?_⟩
      intro i hi1 hi2
      rw [getBang_eq _ i hi1, getBang_eq _ i hi2]
      rw [List.getElem_set]
      by_cases hni : n - 10 = i
      · rw [if_pos hni, if_pos (by omega), List.get_eq_getElem]
        simp [hni]
      · rw [if_neg hni, if_neg (by omega)]
        omega
    · exact absurd h (by simp)

/-- Invariant of the sim_games! accumulation loop: relative to the
incoming histogram and count, the count grows by the number of
extra-inning games in the batch, the histogram total grows by the same
amount, each bucket grows by the number of games ending at its inning,
and every game in the batch completed. -/
lemma sim_games_spec (regular extra : Nat) (skip : Bool) (fuel : Nat) :
    ∀ (drawss : List (List Nat)) (hist : List Nat) (cnt : Nat)
      (histF : List Nat) (cntF : Nat),
      sim_games regular extra skip fuel hist cnt drawss =
        some (histF, cntF) →
      cntF = cnt + extraCount regular extra skip fuel drawss ∧
      histF.length = hist.length ∧
      histF.sum = hist.sum + extraCount regular extra skip fuel drawss ∧
      (∀ i, i < histF.length → i < hist.length →
        histF[i]! = hist[i]! +
          gamesEndingAt regular extra skip fuel (i + 10) drawss) ∧
      (∀ draws ∈ drawss,
        (simulate_game regular extra skip fuel draws).isSome = true) := by
  intro drawss
  induction drawss with
  | nil =>
    intro hist cnt histF cntF h
    obtain ⟨rfl, rfl⟩ : hist = histF ∧ cnt = cntF := by
      have := Option.some.inj h
      exact ⟨congrArg Prod.fst this, congrArg Prod.snd this⟩
    simp [extraCount, gamesEndingAt]
  | cons draws rest ih =>
    intro hist cnt histF cntF h
    unfold sim_games at h
    cases hsim : simulate_game regular extra skip fuel draws with
    | none => rw [hsim] at h; exact absurd h (by simp)
    | some fs =>
      rw [hsim] at h
      dsimp only at h
      by_cases hgt : fs.inning > NUM_INNINGS_DEFAULT
      · rw [if_pos hgt] at h
        have hec : extraCount regular extra skip fuel (draws :: rest) =
            extraCount regular extra skip fuel rest + 1 := by
          unfold extraCount
          rw [List.countP_cons]
          simp [hsim, hgt]
        have hge : ∀ m, gamesEndingAt regular extra skip fuel m
            (draws :: rest) =
            gamesEndingAt regular extra skip fuel m rest +
              (if fs.inning = m then 1 else 0) := by
          intro m
          unfold gamesEndingAt
          rw [List.countP_cons]
          by_cases hm : fs.inning = m <;> simp [hsim, hm]
        cases hupd : update_inning_count hist fs.inning with
        | none => rw [hupd] at h; exact absurd h (by simp)
        | some hist1 =>
          rw [hupd] at h
          obtain ⟨hn10, hidx, hlen1, hsum1, hget1⟩ :=
            update_inning_count_some hist hist1 fs.inning hupd
          obtain ⟨ih1, ih2, ih3, ih4, ih5⟩ := ih hist1 (cnt + 1) histF cntF h
          refine ⟨by rw [hec]; omega, by omega,
            by rw [hec]; omega, ?_, ?_⟩
          · intro i hi1 hi2
            have hi3 : i < hist1.length := by omega
            rw [ih4 i hi1 hi3, hget1 i hi3 hi2, hge (i + 10)]
            omega
          · intro dws hdws
            rcases List.mem_cons.1 hdws with rfl | hmem
            · rw [hsim]; rfl
            · exact ih5 dws hmem
      · rw [if_neg hgt] at h
        have hec : extraCount regular extra skip fuel (draws :: rest) =
            extraCount regular extra skip fuel rest := by
          unfold extraCount
          rw [List.countP_cons]
          simp [hsim, hgt]
        have hle9 : fs.inning ≤ 9 := by
          unfold NUM_INNINGS_DEFAULT at hgt; omega
        have hge : ∀ i : Nat, gamesEndingAt regular extra skip fuel (i + 10)
            (draws :: rest) =
            gamesEndingAt regular extra skip fuel (i + 10) rest := by
          intro i
          unfold gamesEndingAt
          rw [List.countP_cons]
          simp [hsim, show ¬ fs.inning = i + 10 from by omega]
        obtain ⟨ih1, ih2, ih3, ih4, ih5⟩ := ih hist cnt histF cntF h
        refine ⟨by rw [hec]; omega, ih2, by rw [hec]; omega, ?_, ?_⟩
        · intro i hi1 hi2
          rw [ih4 i hi1 hi2, hge i]
        · intro dws hdws
          rcases List.mem_cons.1 hdws with rfl | hmem
          · rw [hsim]; rfl
          · exact ih5 dws hmem

/-- Claim C4: when the simulation engine completes a batch, every game
was run to completion, the returned value counts exactly the games whose
final inning exceeds 9, the histogram only has buckets for innings above
9 (bucket i tallies inning i + 10) with bucket i holding exactly the
number of games ending at inning i + 10, and the returned count equals
the histogram total (the sum of all increments). -/
theorem simulate_inning_counts_spec (regular extra : Nat) (skip : Bool)
    (fuel : Nat) (drawss : List (List Nat)) (hist : List Nat) (cnt : Nat)
    (h : simulate_inning_counts regular extra skip fuel drawss =
      some (hist, cnt)) :
    cnt = extraCount regular extra skip fuel drawss ∧
    hist.sum = cnt ∧
    hist.length = NUM_EXTRA_INNING_LENGTHS ∧
    (∀ i, i < hist.length →
      hist[i]! = gamesEndingAt regular extra skip fuel (i + 10) drawss) ∧
    (∀ draws ∈ drawss,
      (simulate_game regular extra skip fuel draws).isSome = true) := by
  obtain ⟨h1, h2, h3, h4, h5⟩ :=
    sim_games_spec regular extra skip fuel drawss
      (List.replicate NUM_EXTRA_INNING_LENGTHS 0) 0 hist cnt h
  have hlen : (List.replicate NUM_EXTRA_INNING_LENGTHS (0 : Nat)).length =
      NUM_EXTRA_INNING_LENGTHS := List.length_replicate _ _
  have hsum : (List.replicate NUM_EXTRA_INNING_LENGTHS (0 : Nat)).sum = 0 := by
    simp
  refine ⟨by omega, by omega, by omega, ?_, h5⟩
  intro i hi
  have hi2 : i < (List.replicate NUM_EXTRA_INNING_LENGTHS (0 : Nat)).length :=
    by omega
  rw [h4 i hi hi2, getBang_eq _ i hi2, List.getElem_replicate]
  omega

set_option maxRecDepth 20000 in
/-- Witness for C4: a one-game batch whose game, started in extra
innings, ends in the bottom of the tenth. -/
theorem simulate_inning_counts_spec_witness :
    (1 : Nat) = extraCount 50 50 true 25 [[1, 100, 100]] :=
  (simulate_inning_counts_spec 50 50 true 25 [[1, 100, 100]]
    ((List.replicate NUM_EXTRA_INNING_LENGTHS 0).set 0 1) 1 (by rfl)).1

end Varball
